import Mathlib

/-!
Shallow embedding of the packed-ints subsystem (Go package `util`):
version checking, the `PackedFormat` byte/word footprint computations,
the fixed-width readers (`Direct8/16/32/64`, `Packed8ThreeBlocks`,
`Packed16ThreeBlocks`), the general `Packed64` reader, the reader
dispatcher `newPackedReaderNoHeader`, the bulk encoder/decoder entry
points and the `GrowableWriter`.

Embedding conventions:
- `int32`/`int64`/`uint32` quantities that are non-negative throughout the
  claims (value counts, bit widths, byte counts) are embedded as `Nat`;
  stream versions, which are compared against signed constants, as `Int`.
- 64-bit machine words (`int64` block contents) are embedded as their
  unsigned bit pattern, a `Nat` below `2^64`; every shift and or in the
  source operates on the bit pattern, so signedness is immaterial here.
- Go panics and end-of-stream read failures are embedded as the error
  side of `Except`.
- `math.Ceil` over `float64` in `ByteCount`/`longCount` is exact on the
  whole domain of the source (`valueCount < 2^31`, `bitsPerValue ≤ 64`,
  so every intermediate is an integer below `2^37 < 2^53` divided by a
  power of two); it is therefore embedded as exact ceiling division, and
  the equality with the mathematical ceiling over `ℚ` is proved below
  (`PACKED_ByteCount_eq_ceil`).
- The source text is a transcription that contains lexical slips
  (misspelled identifiers such as `newPakedIntsReaderImpl`, missing
  declarations such as `remaining = ...`, a receiver omitted in front of
  a field name). The embedding follows the evident referent of such
  slips. Semantic-level content (shift constants, operand widths,
  arithmetic) is embedded exactly as written.
-/

/-- Version constants of the packed-ints codec. -/
def PACKED_VERSION_START : Int := 0

/-- Version from which streams are byte-aligned rather than word-aligned. -/
def PACKED_VERSION_BYTE_ALIGNED : Int := 1

/-- Newest supported version. -/
def PACKED_VERSION_CURRENT : Int := PACKED_VERSION_BYTE_ALIGNED

/-- Embedding of `CheckVersion`: the Go function panics (with a "too old" /
"too new" message) outside the supported range and returns normally inside
it; the panic is embedded as the error side of `Except`. -/
def CheckVersion (version : Int) : Except String Unit :=
  if version < PACKED_VERSION_START then
    .error "Version is too old"
  else if version > PACKED_VERSION_CURRENT then
    .error "Version is too new"
  else
    .ok ()

/-- Format identifiers are plain integers in the source (`PackedFormat int`);
the two declared constants are `PACKED = 0` and `PACKED_SINGLE_BLOCK = 1`. -/
def PACKED : Int := 0

/-- Single-block format identifier. -/
def PACKED_SINGLE_BLOCK : Int := 1

/-- The two declared format variants, used where the source dispatches on a
`PackedFormat` known to be one of the two constants. -/
inductive PackedFormat where
  | PACKED
  | PACKED_SINGLE_BLOCK
  deriving DecidableEq

/-- Word count of the single-block layout: `valuesPerBlock := 64 / bitsPerValue`
(integer division), then the ceiling of `valueCount / valuesPerBlock`
(exact `float64` arithmetic, embedded as exact ceiling division). This is the
`PACKED_SINGLE_BLOCK` arm of `longCount`, split out because the source's
`ByteCount` and `longCount` call each other on the other format. -/
def singleBlockLongCount (valueCount bitsPerValue : Nat) : Nat :=
  let valuesPerBlock := 64 / bitsPerValue
  (valueCount + valuesPerBlock - 1) / valuesPerBlock

/-- Embedding of `PackedFormat.ByteCount`. For `PACKED`: word-aligned
`8 * ceil(valueCount*bitsPerValue/64)` before `PACKED_VERSION_BYTE_ALIGNED`,
byte-aligned `ceil(valueCount*bitsPerValue/8)` from it on. For any other
format the source returns `8 * longCount(...)`, which for
`PACKED_SINGLE_BLOCK` resolves to the single-block word count. -/
def PackedFormat.ByteCount (f : PackedFormat) (packedIntsVersion : Int)
    (valueCount bitsPerValue : Nat) : Nat :=
  match f with
  | .PACKED =>
    if packedIntsVersion < PACKED_VERSION_BYTE_ALIGNED then
      8 * ((valueCount * bitsPerValue + 63) / 64)
    else
      (valueCount * bitsPerValue + 7) / 8
  | .PACKED_SINGLE_BLOCK =>
    8 * singleBlockLongCount valueCount bitsPerValue

/-- Embedding of `PackedFormat.longCount`: the single-block word count for
`PACKED_SINGLE_BLOCK`, and for `PACKED` the byte count rounded up to the
next whole 64-bit word (`ans/8` when `ans % 8 == 0`, else `ans/8 + 1`). -/
def PackedFormat.longCount (f : PackedFormat) (packedIntsVersion : Int)
    (valueCount bitsPerValue : Nat) : Nat :=
  match f with
  | .PACKED_SINGLE_BLOCK => singleBlockLongCount valueCount bitsPerValue
  | .PACKED =>
    let ans := PackedFormat.ByteCount .PACKED packedIntsVersion valueCount bitsPerValue
    if ans % 8 = 0 then ans / 8 else ans / 8 + 1

/-- C5: CheckVersion fails with the unsupported-version condition exactly
when the version is below `PACKED_VERSION_START` or above
`PACKED_VERSION_CURRENT`; in particular it fails at oldest minus one and at
newest plus one, and succeeds on every version in between. -/
theorem CheckVersion_fails_iff_outside_range :
    (∀ v : Int, (CheckVersion v).isOk = true ↔
      (PACKED_VERSION_START ≤ v ∧ v ≤ PACKED_VERSION_CURRENT)) ∧
    (CheckVersion (PACKED_VERSION_START - 1)).isOk = false ∧
    (CheckVersion (PACKED_VERSION_CURRENT + 1)).isOk = false := by
  refine ⟨fun v => ?_, by decide, by decide⟩
  unfold CheckVersion PACKED_VERSION_START PACKED_VERSION_CURRENT PACKED_VERSION_BYTE_ALIGNED
  split
  · rename_i h
    exact ⟨fun hb => Bool.noConfusion hb, fun hp => absurd hp (by omega)⟩
  · split
    · rename_i h
      exact ⟨fun hb => Bool.noConfusion hb, fun hp => absurd hp (by omega)⟩
    · rename_i h1 h2
      exact ⟨fun _ => by omega, fun _ => rfl⟩

/-- Ceiling of a natural division over `ℚ` equals the rounded-up natural
division `(a + c - 1) / c`; bridges the exact embedding of `math.Ceil` to
the mathematical ceiling. -/
theorem ceil_ratCast_div (a c : Nat) (hc : 0 < c) :
    ⌈(a : ℚ) / (c : ℚ)⌉ = (((a + c - 1) / c : ℕ) : ℤ) := by
  have hc' : (0:ℚ) < (c:ℚ) := by exact_mod_cast hc
  have key : ∀ m r : ℕ, m + r = a + c - 1 → r < c → a ≤ m ∧ m < a + c := by
    intro m r h hr
    omega
  obtain ⟨h1, h2⟩ := key _ _ (Nat.div_add_mod (a + c - 1) c) (Nat.mod_lt _ hc)
  rw [Int.ceil_eq_iff]
  set q : ℕ := (a + c - 1) / c with hq
  constructor
  · rw [lt_div_iff₀ hc']
    have h2q : (c : ℚ) * ((q : ℤ) : ℚ) < (a : ℚ) + (c : ℚ) := by exact_mod_cast h2
    nlinarith [h2q]
  · rw [div_le_iff₀ hc']
    have h1q : (a : ℚ) ≤ (c : ℚ) * ((q : ℤ) : ℚ) := by exact_mod_cast h1
    nlinarith [h1q]

/-- C4: for every valueCount and every bitsPerValue in [1,64], `ByteCount`
for the PACKED format returns the ceiling of `n*b/8` bytes from version
`PACKED_VERSION_BYTE_ALIGNED` on, and `8 * ceil(n*b/64)` bytes for older
versions; in particular the older-version result is always a multiple
of 8. -/
theorem PACKED_ByteCount_eq_ceil (version : Int) (n b : Nat)
    (hb1 : 1 ≤ b) (hb2 : b ≤ 64) :
    (PACKED_VERSION_BYTE_ALIGNED ≤ version →
      ((PackedFormat.PACKED.ByteCount version n b : ℕ) : ℤ) =
        ⌈((n : ℚ) * (b : ℚ)) / 8⌉) ∧
    (version < PACKED_VERSION_BYTE_ALIGNED →
      ((PackedFormat.PACKED.ByteCount version n b : ℕ) : ℤ) =
        8 * ⌈((n : ℚ) * (b : ℚ)) / 64⌉ ∧
      8 ∣ PackedFormat.PACKED.ByteCount version n b) := by
  have castmul : ((n : ℚ) * (b : ℚ)) = ((n * b : ℕ) : ℚ) := by push_cast; ring
  constructor
  · intro hv
    simp only [PackedFormat.ByteCount]
    rw [if_neg (not_lt.mpr hv), castmul, show (8:ℚ) = ((8:ℕ):ℚ) by norm_num,
      ceil_ratCast_div (n * b) 8 (by norm_num)]
    omega
  · intro hv
    have hres : PackedFormat.ByteCount .PACKED version n b = 8 * ((n * b + 63) / 64) := by
      simp only [PackedFormat.ByteCount]
      rw [if_pos hv]
    refine ⟨?_, ⟨(n * b + 63) / 64, hres⟩⟩
    rw [hres, castmul, show (64:ℚ) = ((64:ℕ):ℚ) by norm_num,
      ceil_ratCast_div (n * b) 64 (by norm_num)]
    omega

/-- Witness for C4 at version 1 and version 0, valueCount 3, bitsPerValue 9. -/
theorem PACKED_ByteCount_eq_ceil_witness :
    ((PackedFormat.PACKED.ByteCount 1 3 9 : ℕ) : ℤ) =
      ⌈(((3:ℕ) : ℚ) * ((9:ℕ) : ℚ)) / 8⌉ :=
  (PACKED_ByteCount_eq_ceil 1 3 9 (by decide) (by decide)).1 (by decide)

/-- C9: for every version, `ByteCount` for the PACKED format is
non-decreasing in the value count for a fixed bit width in [1,64], and
non-decreasing in the bit width for a fixed value count. -/
theorem PACKED_ByteCount_monotone (version : Int) :
    (∀ b n1 n2 : Nat, 1 ≤ b → b ≤ 64 → n1 ≤ n2 →
      PackedFormat.PACKED.ByteCount version n1 b ≤
        PackedFormat.PACKED.ByteCount version n2 b) ∧
    (∀ n b1 b2 : Nat, 1 ≤ b1 → b2 ≤ 64 → b1 ≤ b2 →
      PackedFormat.PACKED.ByteCount version n b1 ≤
        PackedFormat.PACKED.ByteCount version n b2) := by
  constructor
  · intro b n1 n2 hb1 hb2 hn
    simp only [PackedFormat.ByteCount]
    split
    · gcongr
    · gcongr
  · intro n b1 b2 hb1 hb2 hb
    simp only [PackedFormat.ByteCount]
    split
    · gcongr
    · gcongr

/-- Witness for C9: value-count monotonicity at version 0, bit width 3. -/
theorem PACKED_ByteCount_monotone_witness :
    PackedFormat.PACKED.ByteCount 0 2 3 ≤ PackedFormat.PACKED.ByteCount 0 5 3 :=
  (PACKED_ByteCount_monotone 0).1 3 2 5 (by decide) (by decide) (by decide)

/-- Read faults: end-of-stream from the underlying input, the max-size
panic of the ThreeBlocks constructors, and the run-time panic Go raises on
a negative shift count. -/
inductive GoFault where
  | eof
  | maxSize
  | negShift
  deriving DecidableEq

/-- Embedding of `DataInput.ReadByte`: the head byte of the stream, or the
underlying read error when the stream is exhausted. -/
def ReadByte (input : List Nat) : Except GoFault (Nat × List Nat) :=
  match input with
  | [] => .error .eof
  | byte :: rest => .ok (byte, rest)

/-- Big-endian multi-byte read: `k` further bytes folded onto `acc`.
`ReadShort`, `ReadInt` and `ReadLong` read 2, 4 and 8 bytes this way. -/
def ReadBE : Nat → Nat → List Nat → Except GoFault (Nat × List Nat)
  | 0, acc, input => .ok (acc, input)
  | k + 1, acc, input =>
    match ReadByte input with
    | .error e => .error e
    | .ok (byte, rest) => ReadBE k (acc * 256 + byte) rest

/-- Embedding of `DataInput.ReadShort` (two bytes, big-endian). -/
def ReadShort (input : List Nat) : Except GoFault (Nat × List Nat) :=
  ReadBE 2 0 input

/-- Embedding of `DataInput.ReadInt` (four bytes, big-endian). -/
def ReadInt (input : List Nat) : Except GoFault (Nat × List Nat) :=
  ReadBE 4 0 input

/-- Embedding of `DataInput.ReadLong` (eight bytes, big-endian). -/
def ReadLong (input : List Nat) : Except GoFault (Nat × List Nat) :=
  ReadBE 8 0 input

/-- Embedding of `DataInput.ReadBytes` into a buffer of `n` bytes: succeeds
with exactly `n` bytes or fails with the underlying error. -/
def ReadBytes (n : Nat) (input : List Nat) : Except GoFault (List Nat × List Nat) :=
  if n ≤ input.length then .ok (input.take n, input.drop n) else .error .eof

/-- Padding-consumption loop shared by the fixed-width constructors: read
`remaining` single bytes one at a time, stopping with the underlying error
if one fails. -/
def skipBytes : Nat → List Nat → Except GoFault (List Nat)
  | 0, input => .ok input
  | k + 1, input =>
    match ReadByte input with
    | .error e => .error e
    | .ok (_, rest) => skipBytes k rest

/-- Value-reading loop of the element-wise constructors (`for i := range
values { values[i], err = read(...) }`): read `m` elements, stopping with
the underlying error if one fails. -/
def readElems (readOne : List Nat → Except GoFault (Nat × List Nat)) :
    Nat → List Nat → Except GoFault (List Nat × List Nat)
  | 0, input => .ok ([], input)
  | m + 1, input =>
    match readOne input with
    | .error e => .error e
    | .ok (v, rest) =>
      match readElems readOne m rest with
      | .error e => .error e
      | .ok (vs, rest2) => .ok (v :: vs, rest2)

/-- `ReadBE` consumes exactly its byte count when the stream is long
enough, and fails with the underlying end-of-stream error otherwise. -/
theorem ReadBE_spec (k : Nat) : ∀ (acc : Nat) (input : List Nat),
    if k ≤ input.length then ∃ v, ReadBE k acc input = .ok (v, input.drop k)
    else ReadBE k acc input = .error .eof := by
  induction k with
  | zero => intro acc input; simp [ReadBE]
  | succ k ih =>
    intro acc input
    match input with
    | [] => simp [ReadBE, ReadByte]
    | byte :: rest =>
      have h := ih (acc * 256 + byte) rest
      simp only [ReadBE, ReadByte, List.length_cons, List.drop_succ_cons,
        Nat.add_le_add_iff_right]
      exact h

/-- `skipBytes` consumes exactly its count when the stream is long enough,
and fails with the underlying end-of-stream error otherwise. -/
theorem skipBytes_spec (k : Nat) : ∀ input : List Nat,
    skipBytes k input =
      if k ≤ input.length then .ok (input.drop k) else .error .eof := by
  induction k with
  | zero => intro input; simp [skipBytes]
  | succ k ih =>
    intro input
    match input with
    | [] => simp [skipBytes, ReadByte]
    | byte :: rest =>
      simp only [skipBytes, ReadByte, ih rest, List.length_cons,
        List.drop_succ_cons, Nat.add_le_add_iff_right]

/-- A reading loop over elements of `c` bytes each consumes exactly `c * m`
bytes when the stream is long enough, and fails with the underlying
end-of-stream error otherwise. -/
theorem readElems_spec (readOne : List Nat → Except GoFault (Nat × List Nat))
    (c : Nat) (hc : 0 < c)
    (hOne : ∀ input : List Nat,
      if c ≤ input.length then ∃ v, readOne input = .ok (v, input.drop c)
      else readOne input = .error .eof) (m : Nat) : ∀ input : List Nat,
    if c * m ≤ input.length then
      ∃ vs, readElems readOne m input = .ok (vs, input.drop (c * m))
    else readElems readOne m input = .error .eof := by
  induction m with
  | zero => intro input; simp [readElems]
  | succ m ih =>
    intro input
    have hsplit : c * (m + 1) = c * m + c := by ring
    have h1 := hOne input
    by_cases hcl : c ≤ input.length
    · rw [if_pos hcl] at h1
      obtain ⟨v, hv⟩ := h1
      have h2 := ih (input.drop c)
      rw [List.length_drop] at h2
      by_cases hml : c * m ≤ input.length - c
      · rw [if_pos hml] at h2
        obtain ⟨vs, hvs⟩ := h2
        rw [if_pos (by omega : c * (m + 1) ≤ input.length)]
        refine ⟨v :: vs, ?_⟩
        simp only [readElems, hv, hvs, List.drop_drop]
        rw [show c + c * m = c * (m + 1) by ring]
      · rw [if_neg hml] at h2
        rw [if_neg (by omega : ¬ c * (m + 1) ≤ input.length)]
        simp only [readElems, hv, h2]
    · rw [if_neg hcl] at h1
      rw [if_neg (by omega : ¬ c * (m + 1) ≤ input.length)]
      simp only [readElems, h1]

/-- Direct8: one byte cell per value. -/
structure Direct8 where
  valueCount : Nat
  values : List Nat

/-- Embedding of `newDirect8FromInput`: fill the `valueCount` byte cells
with one `ReadBytes` call, then consume the
`ByteCount(version, valueCount, 8) - valueCount` padding bytes one at a
time (zero for byte-aligned versions); a failing read aborts construction
with its error. -/
def newDirect8FromInput (version : Int) (input : List Nat) (valueCount : Nat) :
    Except GoFault (Direct8 × List Nat) :=
  match ReadBytes valueCount input with
  | .error e => .error e
  | .ok (vals, rest) =>
    let remaining := PackedFormat.ByteCount .PACKED version valueCount 8 - valueCount
    match skipBytes remaining rest with
    | .error e => .error e
    | .ok rest2 => .ok (⟨valueCount, vals⟩, rest2)

/-- Direct16: one 16-bit cell per value. -/
structure Direct16 where
  valueCount : Nat
  values : List Nat

/-- Embedding of `newDirect16FromInput`: read `valueCount` shorts, then
consume the `ByteCount(version, valueCount, 16) - 2*valueCount` padding
bytes; a failing read aborts construction with its error. -/
def newDirect16FromInput (version : Int) (input : List Nat) (valueCount : Nat) :
    Except GoFault (Direct16 × List Nat) :=
  match readElems ReadShort valueCount input with
  | .error e => .error e
  | .ok (vals, rest) =>
    let remaining := PackedFormat.ByteCount .PACKED version valueCount 16 - 2 * valueCount
    match skipBytes remaining rest with
    | .error e => .error e
    | .ok rest2 => .ok (⟨valueCount, vals⟩, rest2)

/-- Direct32: one 32-bit cell per value. -/
structure Direct32 where
  valueCount : Nat
  values : List Nat

/-- Embedding of `newDirect32FromInput`: read `valueCount` ints, then
consume the `ByteCount(version, valueCount, 32) - 4*valueCount` padding
bytes; a failing read aborts construction with its error. -/
def newDirect32FromInput (version : Int) (input : List Nat) (valueCount : Nat) :
    Except GoFault (Direct32 × List Nat) :=
  match readElems ReadInt valueCount input with
  | .error e => .error e
  | .ok (vals, rest) =>
    let remaining := PackedFormat.ByteCount .PACKED version valueCount 32 - 4 * valueCount
    match skipBytes remaining rest with
    | .error e => .error e
    | .ok rest2 => .ok (⟨valueCount, vals⟩, rest2)

/-- Direct64: one 64-bit cell per value. -/
structure Direct64 where
  valueCount : Nat
  values : List Nat

/-- Embedding of `newDirect64FromInput`: read `valueCount` longs; there is
no padding phase (64-bit cells are always word-aligned); a failing read
aborts construction with its error. -/
def newDirect64FromInput (version : Int) (input : List Nat) (valueCount : Nat) :
    Except GoFault (Direct64 × List Nat) :=
  match readElems ReadLong valueCount input with
  | .error e => .error e
  | .ok (vals, rest) => .ok (⟨valueCount, vals⟩, rest)

/-- Maximum value count of the triple-byte layout, `int32(math.MaxInt32/3)`. -/
def PACKED8_THREE_BLOCKS_MAX_SIZE : Nat := 2147483647 / 3

/-- Maximum value count of the triple-short layout, `int32(math.MaxInt32/3)`. -/
def PACKED16_THREE_BLOCKS_MAX_SIZE : Nat := 2147483647 / 3

/-- Packed8ThreeBlocks: three byte cells per 24-bit value. -/
structure Packed8ThreeBlocks where
  valueCount : Nat
  blocks : List Nat

/-- Embedding of `newPacked8ThreeBlocksFromInput`: the constructor panics
when `valueCount` exceeds the triple-byte bound, otherwise fills the
`3*valueCount` byte cells with one `ReadBytes` call and consumes the
`ByteCount(version, valueCount, 24) - 3*valueCount` padding bytes; a
failing read aborts construction with its error. -/
def newPacked8ThreeBlocksFromInput (version : Int) (input : List Nat) (valueCount : Nat) :
    Except GoFault (Packed8ThreeBlocks × List Nat) :=
  if valueCount > PACKED8_THREE_BLOCKS_MAX_SIZE then .error .maxSize
  else
    match ReadBytes (valueCount * 3) input with
    | .error e => .error e
    | .ok (blocks, rest) =>
      let remaining := PackedFormat.ByteCount .PACKED version valueCount 24 - 3 * valueCount
      match skipBytes remaining rest with
      | .error e => .error e
      | .ok rest2 => .ok (⟨valueCount, blocks⟩, rest2)

/-- Embedding of `Packed8ThreeBlocks.Get`. The source computes
`blocks[o]<<16 | blocks[o+1]<<8 | blocks[o+2]` directly on the byte cells:
both shifts are performed at the 8-bit width of their operands (Go keeps
the left operand's type, and a shift by 8 or more of a `byte` yields 0),
so each shifted summand is reduced mod 256 exactly as the byte type does.
The index is in range for `0 ≤ index < valueCount`, so the default of
`getD` is never taken there. -/
def Packed8ThreeBlocks.Get (r : Packed8ThreeBlocks) (index : Nat) : Nat :=
  let o := index * 3
  ((r.blocks.getD o 0 <<< 16) % 256) |||
    ((r.blocks.getD (o + 1) 0 <<< 8) % 256) |||
    r.blocks.getD (o + 2) 0

/-- Packed16ThreeBlocks: three 16-bit cells per 48-bit value. -/
structure Packed16ThreeBlocks where
  valueCount : Nat
  blocks : List Nat

/-- Embedding of `newPacked16ThreeBlocksFromInput`: the constructor panics
when `valueCount` exceeds the triple-short bound, otherwise reads the
`3*valueCount` short cells and consumes the
`ByteCount(version, valueCount, 48) - 3*valueCount*2` padding bytes; a
failing read aborts construction with its error. -/
def newPacked16ThreeBlocksFromInput (version : Int) (input : List Nat) (valueCount : Nat) :
    Except GoFault (Packed16ThreeBlocks × List Nat) :=
  if valueCount > PACKED16_THREE_BLOCKS_MAX_SIZE then .error .maxSize
  else
    match readElems ReadShort (valueCount * 3) input with
    | .error e => .error e
    | .ok (blocks, rest) =>
      let remaining := PackedFormat.ByteCount .PACKED version valueCount 48 - 3 * valueCount * 2
      match skipBytes remaining rest with
      | .error e => .error e
      | .ok rest2 => .ok (⟨valueCount, blocks⟩, rest2)

/-- One `ReadShort` consumes two bytes or fails with the stream error. -/
theorem ReadShort_cons (input : List Nat) :
    if 2 ≤ input.length then ∃ v, ReadShort input = .ok (v, input.drop 2)
    else ReadShort input = .error .eof := by
  simpa [ReadShort] using ReadBE_spec 2 0 input

/-- One `ReadInt` consumes four bytes or fails with the stream error. -/
theorem ReadInt_cons (input : List Nat) :
    if 4 ≤ input.length then ∃ v, ReadInt input = .ok (v, input.drop 4)
    else ReadInt input = .error .eof := by
  simpa [ReadInt] using ReadBE_spec 4 0 input

/-- One `ReadLong` consumes eight bytes or fails with the stream error. -/
theorem ReadLong_cons (input : List Nat) :
    if 8 ≤ input.length then ∃ v, ReadLong input = .ok (v, input.drop 8)
    else ReadLong input = .error .eof := by
  simpa [ReadLong] using ReadBE_spec 8 0 input

/-- Construction of Direct8 succeeds consuming `valueCount` value bytes plus
the padding exactly when the stream holds them, and otherwise surfaces the
underlying read error. -/
theorem newDirect8FromInput_spec (version : Int) (n : Nat) (input : List Nat) :
    (n + (PackedFormat.ByteCount .PACKED version n 8 - n) ≤ input.length →
      newDirect8FromInput version input n =
        .ok (⟨n, input.take n⟩,
          input.drop (n + (PackedFormat.ByteCount .PACKED version n 8 - n)))) ∧
    (¬ n + (PackedFormat.ByteCount .PACKED version n 8 - n) ≤ input.length →
      newDirect8FromInput version input n = .error .eof) := by
  constructor
  · intro h
    have h1 : n ≤ input.length := by omega
    have hskip : skipBytes (PackedFormat.ByteCount .PACKED version n 8 - n)
        (input.drop n) = .ok ((input.drop n).drop
          (PackedFormat.ByteCount .PACKED version n 8 - n)) := by
      rw [skipBytes_spec, List.length_drop, if_pos (by omega)]
    have hdrop : (input.drop n).drop (PackedFormat.ByteCount .PACKED version n 8 - n) =
        input.drop (n + (PackedFormat.ByteCount .PACKED version n 8 - n)) := by
      rw [List.drop_drop]
    simp only [newDirect8FromInput, ReadBytes, if_pos h1, hskip, hdrop]
  · intro h
    by_cases h1 : n ≤ input.length
    · have hskip : skipBytes (PackedFormat.ByteCount .PACKED version n 8 - n)
          (input.drop n) = .error .eof := by
        rw [skipBytes_spec, List.length_drop, if_neg (by omega)]
      simp only [newDirect8FromInput, ReadBytes, if_pos h1, hskip]
    · simp only [newDirect8FromInput, ReadBytes, if_neg h1]

/-- Construction of Direct16 succeeds consuming `2*valueCount` value bytes
plus the padding exactly when the stream holds them, and otherwise surfaces
the underlying read error. -/
theorem newDirect16FromInput_spec (version : Int) (n : Nat) (input : List Nat) :
    (2 * n + (PackedFormat.ByteCount .PACKED version n 16 - 2 * n) ≤ input.length →
      ∃ vals, newDirect16FromInput version input n =
        .ok (⟨n, vals⟩,
          input.drop (2 * n + (PackedFormat.ByteCount .PACKED version n 16 - 2 * n)))) ∧
    (¬ 2 * n + (PackedFormat.ByteCount .PACKED version n 16 - 2 * n) ≤ input.length →
      newDirect16FromInput version input n = .error .eof) := by
  have hread := readElems_spec ReadShort 2 (by norm_num) ReadShort_cons n input
  constructor
  · intro h
    rw [if_pos (by omega : 2 * n ≤ input.length)] at hread
    obtain ⟨vals, hvals⟩ := hread
    have hskip : skipBytes (PackedFormat.ByteCount .PACKED version n 16 - 2 * n)
        (input.drop (2 * n)) = .ok ((input.drop (2 * n)).drop
          (PackedFormat.ByteCount .PACKED version n 16 - 2 * n)) := by
      rw [skipBytes_spec, List.length_drop, if_pos (by omega)]
    have hdrop : (input.drop (2 * n)).drop
        (PackedFormat.ByteCount .PACKED version n 16 - 2 * n) =
        input.drop (2 * n + (PackedFormat.ByteCount .PACKED version n 16 - 2 * n)) := by
      rw [List.drop_drop]
    exact ⟨vals, by simp only [newDirect16FromInput, hvals, hskip, hdrop]⟩
  · intro h
    by_cases h1 : 2 * n ≤ input.length
    · rw [if_pos h1] at hread
      obtain ⟨vals, hvals⟩ := hread
      have hskip : skipBytes (PackedFormat.ByteCount .PACKED version n 16 - 2 * n)
          (input.drop (2 * n)) = .error .eof := by
        rw [skipBytes_spec, List.length_drop, if_neg (by omega)]
      simp only [newDirect16FromInput, hvals, hskip]
    · rw [if_neg h1] at hread
      simp only [newDirect16FromInput, hread]

/-- Construction of Direct32 succeeds consuming `4*valueCount` value bytes
plus the padding exactly when the stream holds them, and otherwise surfaces
the underlying read error. -/
theorem newDirect32FromInput_spec (version : Int) (n : Nat) (input : List Nat) :
    (4 * n + (PackedFormat.ByteCount .PACKED version n 32 - 4 * n) ≤ input.length →
      ∃ vals, newDirect32FromInput version input n =
        .ok (⟨n, vals⟩,
          input.drop (4 * n + (PackedFormat.ByteCount .PACKED version n 32 - 4 * n)))) ∧
    (¬ 4 * n + (PackedFormat.ByteCount .PACKED version n 32 - 4 * n) ≤ input.length →
      newDirect32FromInput version input n = .error .eof) := by
  have hread := readElems_spec ReadInt 4 (by norm_num) ReadInt_cons n input
  constructor
  · intro h
    rw [if_pos (by omega : 4 * n ≤ input.length)] at hread
    obtain ⟨vals, hvals⟩ := hread
    have hskip : skipBytes (PackedFormat.ByteCount .PACKED version n 32 - 4 * n)
        (input.drop (4 * n)) = .ok ((input.drop (4 * n)).drop
          (PackedFormat.ByteCount .PACKED version n 32 - 4 * n)) := by
      rw [skipBytes_spec, List.length_drop, if_pos (by omega)]
    have hdrop : (input.drop (4 * n)).drop
        (PackedFormat.ByteCount .PACKED version n 32 - 4 * n) =
        input.drop (4 * n + (PackedFormat.ByteCount .PACKED version n 32 - 4 * n)) := by
      rw [List.drop_drop]
    exact ⟨vals, by simp only [newDirect32FromInput, hvals, hskip, hdrop]⟩
  · intro h
    by_cases h1 : 4 * n ≤ input.length
    · rw [if_pos h1] at hread
      obtain ⟨vals, hvals⟩ := hread
      have hskip : skipBytes (PackedFormat.ByteCount .PACKED version n 32 - 4 * n)
          (input.drop (4 * n)) = .error .eof := by
        rw [skipBytes_spec, List.length_drop, if_neg (by omega)]
      simp only [newDirect32FromInput, hvals, hskip]
    · rw [if_neg h1] at hread
      simp only [newDirect32FromInput, hread]

/-- Construction of Direct64 succeeds consuming `8*valueCount` bytes exactly
when the stream holds them (no padding phase), and otherwise surfaces the
underlying read error. -/
theorem newDirect64FromInput_spec (version : Int) (n : Nat) (input : List Nat) :
    (8 * n ≤ input.length →
      ∃ vals, newDirect64FromInput version input n =
        .ok (⟨n, vals⟩, input.drop (8 * n))) ∧
    (¬ 8 * n ≤ input.length →
      newDirect64FromInput version input n = .error .eof) := by
  have hread := readElems_spec ReadLong 8 (by norm_num) ReadLong_cons n input
  constructor
  · intro h
    rw [if_pos h] at hread
    obtain ⟨vals, hvals⟩ := hread
    exact ⟨vals, by simp only [newDirect64FromInput, hvals]⟩
  · intro h
    rw [if_neg h] at hread
    simp only [newDirect64FromInput, hread]

/-- Construction of Packed8ThreeBlocks (within its size bound) succeeds
consuming `3*valueCount` value bytes plus the padding exactly when the
stream holds them, and otherwise surfaces the underlying read error. -/
theorem newPacked8ThreeBlocksFromInput_spec (version : Int) (n : Nat) (input : List Nat)
    (hmax : n ≤ PACKED8_THREE_BLOCKS_MAX_SIZE) :
    (n * 3 + (PackedFormat.ByteCount .PACKED version n 24 - 3 * n) ≤ input.length →
      newPacked8ThreeBlocksFromInput version input n =
        .ok (⟨n, input.take (n * 3)⟩,
          input.drop (n * 3 + (PackedFormat.ByteCount .PACKED version n 24 - 3 * n)))) ∧
    (¬ n * 3 + (PackedFormat.ByteCount .PACKED version n 24 - 3 * n) ≤ input.length →
      newPacked8ThreeBlocksFromInput version input n = .error .eof) := by
  have hguard : ¬ n > PACKED8_THREE_BLOCKS_MAX_SIZE := by omega
  constructor
  · intro h
    have h1 : n * 3 ≤ input.length := by omega
    have hskip : skipBytes (PackedFormat.ByteCount .PACKED version n 24 - 3 * n)
        (input.drop (n * 3)) = .ok ((input.drop (n * 3)).drop
          (PackedFormat.ByteCount .PACKED version n 24 - 3 * n)) := by
      rw [skipBytes_spec, List.length_drop, if_pos (by omega)]
    have hdrop : (input.drop (n * 3)).drop
        (PackedFormat.ByteCount .PACKED version n 24 - 3 * n) =
        input.drop (n * 3 + (PackedFormat.ByteCount .PACKED version n 24 - 3 * n)) := by
      rw [List.drop_drop]
    simp only [newPacked8ThreeBlocksFromInput, if_neg hguard, ReadBytes, if_pos h1,
      hskip, hdrop]
  · intro h
    by_cases h1 : n * 3 ≤ input.length
    · have hskip : skipBytes (PackedFormat.ByteCount .PACKED version n 24 - 3 * n)
          (input.drop (n * 3)) = .error .eof := by
        rw [skipBytes_spec, List.length_drop, if_neg (by omega)]
      simp only [newPacked8ThreeBlocksFromInput, if_neg hguard, ReadBytes, if_pos h1, hskip]
    · simp only [newPacked8ThreeBlocksFromInput, if_neg hguard, ReadBytes, if_neg h1]

/-- Construction of Packed16ThreeBlocks (within its size bound) succeeds
consuming `6*valueCount` value bytes plus the padding exactly when the
stream holds them, and otherwise surfaces the underlying read error. -/
theorem newPacked16ThreeBlocksFromInput_spec (version : Int) (n : Nat) (input : List Nat)
    (hmax : n ≤ PACKED16_THREE_BLOCKS_MAX_SIZE) :
    (2 * (n * 3) + (PackedFormat.ByteCount .PACKED version n 48 - 3 * n * 2) ≤ input.length →
      ∃ blocks, newPacked16ThreeBlocksFromInput version input n =
        .ok (⟨n, blocks⟩,
          input.drop (2 * (n * 3) +
            (PackedFormat.ByteCount .PACKED version n 48 - 3 * n * 2)))) ∧
    (¬ 2 * (n * 3) + (PackedFormat.ByteCount .PACKED version n 48 - 3 * n * 2) ≤ input.length →
      newPacked16ThreeBlocksFromInput version input n = .error .eof) := by
  have hguard : ¬ n > PACKED16_THREE_BLOCKS_MAX_SIZE := by omega
  have hread := readElems_spec ReadShort 2 (by norm_num) ReadShort_cons (n * 3) input
  constructor
  · intro h
    rw [if_pos (by omega : 2 * (n * 3) ≤ input.length)] at hread
    obtain ⟨blocks, hblocks⟩ := hread
    have hskip : skipBytes (PackedFormat.ByteCount .PACKED version n 48 - 3 * n * 2)
        (input.drop (2 * (n * 3))) = .ok ((input.drop (2 * (n * 3))).drop
          (PackedFormat.ByteCount .PACKED version n 48 - 3 * n * 2)) := by
      rw [skipBytes_spec, List.length_drop, if_pos (by omega)]
    have hdrop : (input.drop (2 * (n * 3))).drop
        (PackedFormat.ByteCount .PACKED version n 48 - 3 * n * 2) =
        input.drop (2 * (n * 3) +
          (PackedFormat.ByteCount .PACKED version n 48 - 3 * n * 2)) := by
      rw [List.drop_drop]
    exact ⟨blocks, by
      simp only [newPacked16ThreeBlocksFromInput, if_neg hguard, hblocks, hskip, hdrop]⟩
  · intro h
    by_cases h1 : 2 * (n * 3) ≤ input.length
    · rw [if_pos h1] at hread
      obtain ⟨blocks, hblocks⟩ := hread
      have hskip : skipBytes (PackedFormat.ByteCount .PACKED version n 48 - 3 * n * 2)
          (input.drop (2 * (n * 3))) = .error .eof := by
        rw [skipBytes_spec, List.length_drop, if_neg (by omega)]
      simp only [newPacked16ThreeBlocksFromInput, if_neg hguard, hblocks, hskip]
    · rw [if_neg h1] at hread
      simp only [newPacked16ThreeBlocksFromInput, if_neg hguard, hread]

/-- C3: for every fixed-width reader constructed from a binary input
(Direct8/16/32/64 and the two ThreeBlocks variants within their bound),
construction succeeds exactly when every read of the value phase and the
padding phase succeeds; when any read fails, construction aborts with the
underlying read error and no reader result is produced. -/
theorem fixedWidth_construction_error_handling (version : Int) (n : Nat) (input : List Nat) :
    (((newDirect8FromInput version input n).isOk = true ↔
        n + (PackedFormat.ByteCount .PACKED version n 8 - n) ≤ input.length) ∧
      (¬ n + (PackedFormat.ByteCount .PACKED version n 8 - n) ≤ input.length →
        newDirect8FromInput version input n = .error .eof)) ∧
    (((newDirect16FromInput version input n).isOk = true ↔
        2 * n + (PackedFormat.ByteCount .PACKED version n 16 - 2 * n) ≤ input.length) ∧
      (¬ 2 * n + (PackedFormat.ByteCount .PACKED version n 16 - 2 * n) ≤ input.length →
        newDirect16FromInput version input n = .error .eof)) ∧
    (((newDirect32FromInput version input n).isOk = true ↔
        4 * n + (PackedFormat.ByteCount .PACKED version n 32 - 4 * n) ≤ input.length) ∧
      (¬ 4 * n + (PackedFormat.ByteCount .PACKED version n 32 - 4 * n) ≤ input.length →
        newDirect32FromInput version input n = .error .eof)) ∧
    (((newDirect64FromInput version input n).isOk = true ↔ 8 * n ≤ input.length) ∧
      (¬ 8 * n ≤ input.length → newDirect64FromInput version input n = .error .eof)) ∧
    (n ≤ PACKED8_THREE_BLOCKS_MAX_SIZE →
      ((newPacked8ThreeBlocksFromInput version input n).isOk = true ↔
        n * 3 + (PackedFormat.ByteCount .PACKED version n 24 - 3 * n) ≤ input.length) ∧
      (¬ n * 3 + (PackedFormat.ByteCount .PACKED version n 24 - 3 * n) ≤ input.length →
        newPacked8ThreeBlocksFromInput version input n = .error .eof)) ∧
    (n ≤ PACKED16_THREE_BLOCKS_MAX_SIZE →
      ((newPacked16ThreeBlocksFromInput version input n).isOk = true ↔
        2 * (n * 3) + (PackedFormat.ByteCount .PACKED version n 48 - 3 * n * 2) ≤
          input.length) ∧
      (¬ 2 * (n * 3) + (PackedFormat.ByteCount .PACKED version n 48 - 3 * n * 2) ≤
          input.length →
        newPacked16ThreeBlocksFromInput version input n = .error .eof)) := by
  refine ⟨⟨?_, (newDirect8FromInput_spec version n input).2⟩,
    ⟨?_, (newDirect16FromInput_spec version n input).2⟩,
    ⟨?_, (newDirect32FromInput_spec version n input).2⟩,
    ⟨?_, (newDirect64FromInput_spec version n input).2⟩,
    fun hmax => ⟨?_, (newPacked8ThreeBlocksFromInput_spec version n input hmax).2⟩,
    fun hmax => ⟨?_, (newPacked16ThreeBlocksFromInput_spec version n input hmax).2⟩⟩
  · constructor
    · intro hok
      by_contra hno
      rw [(newDirect8FromInput_spec version n input).2 hno] at hok
      exact Bool.noConfusion hok
    · intro h
      rw [(newDirect8FromInput_spec version n input).1 h]
      rfl
  · constructor
    · intro hok
      by_contra hno
      rw [(newDirect16FromInput_spec version n input).2 hno] at hok
      exact Bool.noConfusion hok
    · intro h
      obtain ⟨vals, hv⟩ := (newDirect16FromInput_spec version n input).1 h
      rw [hv]
      rfl
  · constructor
    · intro hok
      by_contra hno
      rw [(newDirect32FromInput_spec version n input).2 hno] at hok
      exact Bool.noConfusion hok
    · intro h
      obtain ⟨vals, hv⟩ := (newDirect32FromInput_spec version n input).1 h
      rw [hv]
      rfl
  · constructor
    · intro hok
      by_contra hno
      rw [(newDirect64FromInput_spec version n input).2 hno] at hok
      exact Bool.noConfusion hok
    · intro h
      obtain ⟨vals, hv⟩ := (newDirect64FromInput_spec version n input).1 h
      rw [hv]
      rfl
  · constructor
    · intro hok
      by_contra hno
      rw [(newPacked8ThreeBlocksFromInput_spec version n input hmax).2 hno] at hok
      exact Bool.noConfusion hok
    · intro h
      rw [(newPacked8ThreeBlocksFromInput_spec version n input hmax).1 h]
      rfl
  · constructor
    · intro hok
      by_contra hno
      rw [(newPacked16ThreeBlocksFromInput_spec version n input hmax).2 hno] at hok
      exact Bool.noConfusion hok
    · intro h
      obtain ⟨blocks, hv⟩ := (newPacked16ThreeBlocksFromInput_spec version n input hmax).1 h
      rw [hv]
      rfl

/-- Witness for C3: on an empty stream, constructing a one-value Direct8 at
version 1 fails with the end-of-stream error. -/
theorem fixedWidth_construction_error_handling_witness :
    newDirect8FromInput 1 [] 1 = .error .eof :=
  (fixedWidth_construction_error_handling 1 1 []).1.2 (by decide)

/-- Block size of the general bit-packed reader. -/
def PACKED64_BLOCK_SIZE : Nat := 64

/-- The general bit-packed reader: 64-bit blocks (as unsigned bit
patterns), the precomputed right mask, and the signed shift adjustment. -/
structure Packed64 where
  valueCount : Nat
  bitsPerValue : Nat
  blocks : List Nat
  maskRight : Nat
  bpvMinusBlockSize : Int

/-- Embedding of `newPacked64`: allocate `longCount` zeroed blocks and
precompute `maskRight = uint64(^int64(0) << (64-bpv)) >> (64-bpv)`: the
all-ones word shifted left (bits above the 64th dropped), reinterpreted
unsigned, then logically shifted right. The source stores
`bitsPerValue - PACKED64_BLOCK_SIZE` into a signed field (through a
misspelled field name and without the conversion Go requires); the evident
signed difference is embedded. -/
def newPacked64 (valueCount bitsPerValue : Nat) : Packed64 :=
  let longCount := PackedFormat.longCount .PACKED PACKED_VERSION_CURRENT valueCount bitsPerValue
  { valueCount := valueCount
    bitsPerValue := bitsPerValue
    blocks := List.replicate longCount 0
    maskRight := (((2 ^ 64 - 1) <<< (PACKED64_BLOCK_SIZE - bitsPerValue)) % 2 ^ 64) >>>
      (PACKED64_BLOCK_SIZE - bitsPerValue)
    bpvMinusBlockSize := (bitsPerValue : Int) - (PACKED64_BLOCK_SIZE : Int) }

/-- Trailing-byte loop of `newPacked64FromInput`, embedded exactly as
written: the i-th trailing byte is accumulated with
`lastLong |= int64(b) << (5 - i*8)`; for `i ≥ 1` the shift count is
negative, a run-time panic in Go. The source reads with
`b, err := in.ReadByte()`, whose `:=` declares a fresh `err` scoped to the
loop body: a failing trailing read only breaks the loop and is invisible
to the enclosing function, so the loop result stays a success. -/
def lastBytesLoop : Nat → Nat → Nat → List Nat → Except GoFault (Nat × List Nat)
  | 0, _, lastLong, input => .ok (lastLong, input)
  | k + 1, i, lastLong, input =>
    match ReadByte input with
    | .error _ => .ok (lastLong, input)
    | .ok (b, rest) =>
      let s : Int := 5 - (i : Int) * 8
      if s < 0 then .error .negShift
      else lastBytesLoop k (i + 1) (lastLong ||| ((b <<< s.toNat) % 2 ^ 64)) rest

/-- Embedding of `newPacked64FromInput`: read `byteCount/8` whole 64-bit
words into consecutive blocks (the remaining `longCount - byteCount/8`
blocks stay zero), then, when `byteCount` is not a multiple of 8, run the
trailing-byte loop and store its accumulated word into the last block. -/
def newPacked64FromInput (version : Int) (input : List Nat)
    (valueCount bitsPerValue : Nat) : Except GoFault (Packed64 × List Nat) :=
  let ans := newPacked64 valueCount bitsPerValue
  let byteCount := PackedFormat.ByteCount .PACKED version valueCount bitsPerValue
  let longCount := PackedFormat.longCount .PACKED PACKED_VERSION_CURRENT valueCount bitsPerValue
  match readElems ReadLong (byteCount / 8) input with
  | .error e => .error e
  | .ok (longs, rest) =>
    let blocks := longs ++ List.replicate (longCount - byteCount / 8) 0
    if byteCount % 8 ≠ 0 then
      match lastBytesLoop (byteCount % 8) 0 0 rest with
      | .error e => .error e
      | .ok (lastLong, rest2) =>
        .ok ({ ans with blocks := blocks.set (blocks.length - 1) lastLong }, rest2)
    else
      .ok ({ ans with blocks := blocks }, rest)

/-- C8: for every bitsPerValue in [1,64], the right mask precomputed by
`newPacked64` equals `2^bitsPerValue - 1`: it isolates exactly the low
`bitsPerValue` bits of a 64-bit word. -/
theorem newPacked64_maskRight_eq (n b : Nat) (hb1 : 1 ≤ b) (hb2 : b ≤ 64) :
    (newPacked64 n b).maskRight = 2 ^ b - 1 := by
  have h : ∀ b' : Nat, b' < 65 → 1 ≤ b' →
      (((2 ^ 64 - 1) <<< (64 - b')) % 2 ^ 64) >>> (64 - b') = 2 ^ b' - 1 := by decide
  have hb := h b (by omega) hb1
  simp only [newPacked64, PACKED64_BLOCK_SIZE]
  exact hb

/-- Witness for C8 at valueCount 4, bitsPerValue 3. -/
theorem newPacked64_maskRight_eq_witness :
    (newPacked64 4 3).maskRight = 2 ^ 3 - 1 :=
  newPacked64_maskRight_eq 4 3 (by decide) (by decide)

/-- C1 (divergence of the trailing-byte accumulation): at version 1,
valueCount 1, bitsPerValue 1 and stream [0x01], `byteCount = 1`, so no
whole word is read and one trailing byte remains; the source accumulates
it with shift constant `5 - 0*8 = 5`, storing 32 in the final block
instead of the big-endian `1 <<< 56` the specification describes. At
bitsPerValue 9 with stream [0x01, 0x01] two trailing bytes remain and the
second iteration's shift count `5 - 8` is negative: a Go run-time panic. -/
theorem newPacked64FromInput_trailing_shift_bug :
    ((newPacked64FromInput 1 [1] 1 1).map fun p => p.1.blocks) = .ok [32] ∧
      (32 : Nat) ≠ 1 <<< 56 ∧
      newPacked64FromInput 1 [1, 1] 1 9 = .error .negShift := by
  refine ⟨rfl, by decide, rfl⟩

/-- C2 (divergence of the 24-bit combine): the shifts in
`Packed8ThreeBlocks.Get` are computed at the 8-bit width of the byte
cells, so the high and mid cells are truncated away and the result is
always the low cell alone; at `blocks = [1,2,3]`, `Get(0)` is 3, not the
combined `1*2^16 + 2*2^8 + 3 = 66051` the specification describes. -/
theorem Packed8ThreeBlocks_Get_truncation_bug :
    (∀ (r : Packed8ThreeBlocks) (index : Nat),
      r.Get index = r.blocks.getD (index * 3 + 2) 0) ∧
    Packed8ThreeBlocks.Get ⟨1, [1, 2, 3]⟩ 0 = 3 ∧
    (3 : Nat) ≠ 1 * 2 ^ 16 + 2 * 2 ^ 8 + 3 := by
  refine ⟨fun r index => ?_, rfl, by decide⟩
  simp only [Packed8ThreeBlocks.Get]
  have h16 : ∀ x : Nat, (x <<< 16) % 256 = 0 := by
    intro x
    rw [Nat.shiftLeft_eq, show (2:Nat) ^ 16 = 256 * 256 from rfl, ← Nat.mul_assoc]
    exact Nat.mul_mod_left _ _
  have h8 : ∀ x : Nat, (x <<< 8) % 256 = 0 := by
    intro x
    rw [Nat.shiftLeft_eq, show (2:Nat) ^ 8 = 256 from rfl]
    exact Nat.mul_mod_left _ _
  rw [h16, h8]
  simp

/-- Mutable packed array backing the GrowableWriter: a bit width and one
cell per value. -/
structure PackedIntsMutable where
  bitsPerValue : Nat
  values : List Nat

/-- Point lookup on a Mutable backing. -/
def PackedIntsMutable.Get (m : PackedIntsMutable) (index : Nat) : Nat :=
  m.values.getD index 0

/-- Point update on a Mutable backing. -/
def PackedIntsMutable.Set (m : PackedIntsMutable) (index value : Nat) : PackedIntsMutable :=
  { m with values := m.values.set index value }

/-- Value count of a Mutable backing. -/
def PackedIntsMutable.Size (m : PackedIntsMutable) : Nat :=
  m.values.length

/-- Embedding of `GrowableWriter`: owns exactly one current Mutable
backing. -/
structure GrowableWriter where
  current : PackedIntsMutable

/-- Embedding of `GrowableWriter.Get`: delegates to the backing. -/
def GrowableWriter.Get (w : GrowableWriter) (index : Nat) : Nat :=
  w.current.Get index

/-- Embedding of `GrowableWriter.Size`: delegates to the backing. -/
def GrowableWriter.Size (w : GrowableWriter) : Nat :=
  w.current.Size

/-- Modelled from the spec: the minimum bit width that accommodates a
value (the width computation backing `Set` is absent from src, which
declares only the `GrowableWriter` struct and its `Get`/`Size`
delegates). -/
def bitsRequired (value : Nat) : Nat :=
  max 1 (Nat.log2 value + 1)

/-- Modelled from the spec: `GrowableWriter.Set` is absent from src (only
`Get` and `Size` are present). Per spec section 4.6: if the value fits
within the current backing's bit width, delegate directly; otherwise
allocate a new Mutable of the minimum accommodating width and the same
value count, copy every existing value across, replace the backing, then
perform the set. -/
def GrowableWriter.Set (w : GrowableWriter) (index value : Nat) : GrowableWriter :=
  if bitsRequired value ≤ w.current.bitsPerValue then
    { current := w.current.Set index value }
  else
    let grown : PackedIntsMutable :=
      { bitsPerValue := bitsRequired value, values := w.current.values }
    { current := grown.Set index value }

/-- C7: setting a value that needs more bits than the current backing's
width grows the writer; afterwards every other stored value reads back
unchanged, the new value reads back at its index, and the size is
unchanged by the growth. -/
theorem GrowableWriter_Set_grow_preserves (w : GrowableWriter) (i v : Nat)
    (hgrow : w.current.bitsPerValue < bitsRequired v) (hi : i < w.Size) :
    (∀ j, j < w.Size → j ≠ i → (w.Set i v).Get j = w.Get j) ∧
    (w.Set i v).Get i = v ∧
    (w.Set i v).Size = w.Size := by
  have hcond : ¬ bitsRequired v ≤ w.current.bitsPerValue := by omega
  simp only [GrowableWriter.Set, if_neg hcond, GrowableWriter.Get, GrowableWriter.Size,
    PackedIntsMutable.Get, PackedIntsMutable.Set, PackedIntsMutable.Size] at *
  refine ⟨fun j hj hij => ?_, ?_, by simp⟩
  · rw [List.getD_eq_getElem?_getD, List.getD_eq_getElem?_getD,
      List.getElem?_set_ne (fun h => hij h.symm)]
  · rw [List.getD_eq_getElem?_getD, List.getElem?_set_self hi]
    rfl

/-- Witness for C7: growing a width-2 writer holding [1,2,3] by setting
index 1 to 10 (which needs 4 bits) leaves the size at 3, keeps the other
values, and reads back 10. -/
theorem GrowableWriter_Set_grow_preserves_witness :
    (GrowableWriter.Set ⟨⟨2, [1, 2, 3]⟩⟩ 1 10).Get 1 = 10 :=
  (GrowableWriter_Set_grow_preserves ⟨⟨2, [1, 2, 3]⟩⟩ 1 10
    (by simp [bitsRequired, Nat.log2]) (by decide)).2.1

/-- CheckVersion succeeds on every version inside the supported range. -/
theorem CheckVersion_ok (v : Int) (h1 : PACKED_VERSION_START ≤ v)
    (h2 : v ≤ PACKED_VERSION_CURRENT) : CheckVersion v = .ok () := by
  unfold CheckVersion PACKED_VERSION_START PACKED_VERSION_CURRENT
    PACKED_VERSION_BYTE_ALIGNED at *
  rw [if_neg (by omega), if_neg (by omega)]

/-- CheckVersion fails on every version outside the supported range. -/
theorem CheckVersion_err (v : Int)
    (h : v < PACKED_VERSION_START ∨ PACKED_VERSION_CURRENT < v) :
    ∃ s, CheckVersion v = .error s := by
  unfold CheckVersion PACKED_VERSION_START PACKED_VERSION_CURRENT
    PACKED_VERSION_BYTE_ALIGNED at *
  rcases h with h | h
  · exact ⟨_, by rw [if_pos (by omega)]⟩
  · rw [if_neg (by omega), if_pos (by omega)]
    exact ⟨_, rfl⟩

/-- The concrete reader a dispatch selects. -/
inductive ReaderKind where
  | packed64SingleBlock
  | direct8
  | direct16
  | direct32
  | direct64
  | packed8ThreeBlocks
  | packed16ThreeBlocks
  | packed64
  deriving DecidableEq

/-- Embedding of the dispatch performed by `newPackedHeaderNoHeader`:
after `CheckVersion`, the format switch selects the concrete constructor
invoked on the input. The embedding returns which constructor is selected;
the `panic` on an unknown format identifier, and the `CheckVersion` panic,
are the error side. -/
def newPackedHeaderNoHeader (format : Int) (version : Int)
    (valueCount bitsPerValue : Nat) : Except String ReaderKind :=
  match CheckVersion version with
  | .error e => .error e
  | .ok () =>
    if format = PACKED_SINGLE_BLOCK then .ok .packed64SingleBlock
    else if format = PACKED then
      if bitsPerValue = 8 then .ok .direct8
      else if bitsPerValue = 16 then .ok .direct16
      else if bitsPerValue = 32 then .ok .direct32
      else if bitsPerValue = 64 then .ok .direct64
      else if bitsPerValue = 24 ∧ valueCount ≤ PACKED8_THREE_BLOCKS_MAX_SIZE then
        .ok .packed8ThreeBlocks
      else if bitsPerValue = 48 ∧ valueCount ≤ PACKED16_THREE_BLOCKS_MAX_SIZE then
        .ok .packed16ThreeBlocks
      else .ok .packed64
    else .error "Unknown Writer foramt"

/-- C6: with a validated version, PACKED_SINGLE_BLOCK dispatches to the
single-block reader; PACKED with widths 8/16/32/64 to the Direct readers;
24 and 48 within the triple bound to the ThreeBlocks readers; every other
PACKED width, and 24/48 over the bound, to the general Packed64 reader;
any other format identifier is a fatal decode error. -/
theorem newPackedHeaderNoHeader_dispatch (version : Int) (n b : Nat)
    (hv1 : PACKED_VERSION_START ≤ version) (hv2 : version ≤ PACKED_VERSION_CURRENT) :
    (newPackedHeaderNoHeader PACKED_SINGLE_BLOCK version n b = .ok .packed64SingleBlock) ∧
    (newPackedHeaderNoHeader PACKED version n 8 = .ok .direct8) ∧
    (newPackedHeaderNoHeader PACKED version n 16 = .ok .direct16) ∧
    (newPackedHeaderNoHeader PACKED version n 32 = .ok .direct32) ∧
    (newPackedHeaderNoHeader PACKED version n 64 = .ok .direct64) ∧
    (n ≤ PACKED8_THREE_BLOCKS_MAX_SIZE →
      newPackedHeaderNoHeader PACKED version n 24 = .ok .packed8ThreeBlocks) ∧
    (n ≤ PACKED16_THREE_BLOCKS_MAX_SIZE →
      newPackedHeaderNoHeader PACKED version n 48 = .ok .packed16ThreeBlocks) ∧
    (b ≠ 8 → b ≠ 16 → b ≠ 24 → b ≠ 32 → b ≠ 48 → b ≠ 64 →
      newPackedHeaderNoHeader PACKED version n b = .ok .packed64) ∧
    (n > PACKED8_THREE_BLOCKS_MAX_SIZE →
      newPackedHeaderNoHeader PACKED version n 24 = .ok .packed64) ∧
    (n > PACKED16_THREE_BLOCKS_MAX_SIZE →
      newPackedHeaderNoHeader PACKED version n 48 = .ok .packed64) ∧
    (∀ f : Int, f ≠ PACKED → f ≠ PACKED_SINGLE_BLOCK →
      newPackedHeaderNoHeader f version n b = .error "Unknown Writer foramt") := by
  have hok := CheckVersion_ok version hv1 hv2
  have hne : PACKED ≠ PACKED_SINGLE_BLOCK := by
    unfold PACKED PACKED_SINGLE_BLOCK
    omega
  refine ⟨?_, ?_, ?_, ?_, ?_, fun hn => ?_, fun hn => ?_,
    fun h8 h16 h24 h32 h48 h64 => ?_, fun hn => ?_, fun hn => ?_,
    fun f hf1 hf2 => ?_⟩
  · simp [newPackedHeaderNoHeader, hok]
  · simp [newPackedHeaderNoHeader, hok, hne]
  · simp [newPackedHeaderNoHeader, hok, hne]
  · simp [newPackedHeaderNoHeader, hok, hne]
  · simp [newPackedHeaderNoHeader, hok, hne]
  · simp [newPackedHeaderNoHeader, hok, hne, hn]
  · simp [newPackedHeaderNoHeader, hok, hne, hn]
  · simp [newPackedHeaderNoHeader, hok, hne, h8, h16, h24, h32, h48, h64]
  · simp [newPackedHeaderNoHeader, hok, hne, Nat.not_le.mpr hn]
  · simp [newPackedHeaderNoHeader, hok, hne, Nat.not_le.mpr hn]
  · simp [newPackedHeaderNoHeader, hok, hf1, hf2]

/-- Witness for C6: at version 0, valueCount 5 and width 24 the dispatch
selects Packed8ThreeBlocks. -/
theorem newPackedHeaderNoHeader_dispatch_witness :
    newPackedHeaderNoHeader PACKED 0 5 24 = .ok .packed8ThreeBlocks :=
  (newPackedHeaderNoHeader_dispatch 0 5 24 (by decide)
    (by decide)).2.2.2.2.2.1 (by decide)

/-- Bulk operation capability object. Modelled from the spec: the body of
`newBulkOperation` is not part of src (only its callers are); the spec
describes the result as a capability object obtained from the format and
bit width, so the embedding records exactly those. -/
structure BulkOperation where
  format : PackedFormat
  bitsPerValue : Nat

/-- Modelled from the spec: constructor of the bulk operation capability
object (body absent from src). -/
def newBulkOperation (format : PackedFormat) (bitsPerValue : Nat) : BulkOperation :=
  { format := format, bitsPerValue := bitsPerValue }

/-- Embedding of `GetPackedIntsEncoder`: validates the version first (the
`CheckVersion` panic surfaced as the error side), then builds the bulk
operation. -/
def GetPackedIntsEncoder (format : PackedFormat) (version : Int) (bitsPerValue : Nat) :
    Except String BulkOperation :=
  match CheckVersion version with
  | .error e => .error e
  | .ok () => .ok (newBulkOperation format bitsPerValue)

/-- Embedding of `GetPackedIntsDecoder`: validates the version first (the
`CheckVersion` panic surfaced as the error side), then builds the bulk
operation. -/
def GetPackedIntsDecoder (format : PackedFormat) (version : Int) (bitsPerValue : Nat) :
    Except String BulkOperation :=
  match CheckVersion version with
  | .error e => .error e
  | .ok () => .ok (newBulkOperation format bitsPerValue)

/-- C10: the encoder and decoder entry points validate the version before
constructing anything: outside the supported range they fail with the
unsupported-version condition and produce no object; inside it the version
check never fails the call. -/
theorem GetPackedIntsEncoderDecoder_version_gate (format : PackedFormat)
    (version : Int) (bitsPerValue : Nat) :
    ((version < PACKED_VERSION_START ∨ PACKED_VERSION_CURRENT < version) →
      (GetPackedIntsEncoder format version bitsPerValue).isOk = false ∧
      (GetPackedIntsDecoder format version bitsPerValue).isOk = false) ∧
    (PACKED_VERSION_START ≤ version → version ≤ PACKED_VERSION_CURRENT →
      GetPackedIntsEncoder format version bitsPerValue =
        .ok (newBulkOperation format bitsPerValue) ∧
      GetPackedIntsDecoder format version bitsPerValue =
        .ok (newBulkOperation format bitsPerValue)) := by
  constructor
  · intro h
    obtain ⟨s, hs⟩ := CheckVersion_err version h
    constructor <;> simp [GetPackedIntsEncoder, GetPackedIntsDecoder, hs, Except.isOk,
      Except.toBool]
  · intro h1 h2
    have hok := CheckVersion_ok version h1 h2
    constructor <;> simp [GetPackedIntsEncoder, GetPackedIntsDecoder, hok]

/-- Witness for C10: version 2 (newest plus one) fails the encoder entry
point. -/
theorem GetPackedIntsEncoderDecoder_version_gate_witness :
    (GetPackedIntsEncoder .PACKED 2 8).isOk = false :=
  ((GetPackedIntsEncoderDecoder_version_gate .PACKED 2 8).1 (by decide)).1
